import Mathlib

/-!
Verification development for the async URL processor
(`async_url_processor.py`).

The Python module is shallowly embedded as executable Lean definitions:

* string helpers mirror the Python `str` methods used by the code
  (`rstrip('/')`, `split(c)[0]`, `startswith`, `strip`);
* `deduplicate_parent_child_urls` mirrors the parent/child deduplication
  pass of `AsyncURLProcessor.deduplicate_parent_child_urls`;
* `processResponseStep` / `tryApproachStep` mirror
  `_process_response` / `_try_approach` (the HTTP/transport outcome
  classification together with its counter side effects);
* `validateSingleUrl` / `retrySingleUrl` / `runPhase1` / `runPhase2`
  mirror the phase-1 / phase-2 orchestration (`validate_single_url`,
  `retry_single_url`, `process_all_urls_async`), with the network
  abstracted as an oracle giving the transport result of the n-th
  attempt of each (domain, approach) pair, and with logging,
  header-rotation bookkeeping and asyncio admission primitives elided
  (the model is the serialized interleaving in which each URL's
  critical sections run atomically, which the code enforces with
  `_counter_lock`);
* `onErrorDelay` / `onSuccessDelay` mirror `adaptive_delay_for_domain`,
  with the float arithmetic carried out exactly over `ℚ`
  (`0.8` is `4/5`, the base delay `0.5` is `1/2`);
* `save_progress` mirrors the report writer, with the file system
  elided and Python's `ZeroDivisionError` made explicit in an
  `Except` result.
-/

namespace AsyncUrlProc

/-! ## Python string helpers -/

/-- Drop the longest suffix of characters satisfying `p`
(the list-level engine of Python's `rstrip`). -/
def dropRightWhileCh (p : Char → Bool) (l : List Char) : List Char :=
  (l.reverse.dropWhile p).reverse

/-- Python `s.rstrip('/')`: remove all trailing slashes. -/
def rstripSlashes (s : String) : String :=
  ⟨dropRightWhileCh (fun c => c == '/') s.data⟩

/-- Python `url.strip()`: remove leading and trailing whitespace. -/
def pyStrip (s : String) : String :=
  ⟨dropRightWhileCh Char.isWhitespace (s.data.dropWhile Char.isWhitespace)⟩

/-- Python `s.split(c)[0]`: the prefix of `s` before the first
occurrence of `c` (all of `s` if `c` does not occur). -/
def takeUntilChar (c : Char) (s : String) : String :=
  ⟨s.data.takeWhile (fun d => d ≠ c)⟩

/-- Python `s.split(c)` on a single-character separator: all the
fields, empty fields included. -/
def splitChar (c : Char) : List Char → List (List Char)
  | [] => [[]]
  | x :: xs =>
    match splitChar c xs with
    | [] => [[]]
    | h :: t => if x = c then [] :: h :: t else (x :: h) :: t

/-- Boolean string-prefix test on character lists
(Python `s.startswith(p)` is `isPrefixCh p.data s.data`). -/
def isPrefixCh : List Char → List Char → Bool
  | [], _ => true
  | _ :: _, [] => false
  | a :: as, b :: bs => a == b && isPrefixCh as bs

/-! ## Domain extraction

`ApproachMemory.get_domain_from_url` (and `_get_domain`) return
`urlparse(url).netloc.lower()`.  For a URL that contains a scheme
separator (every URL this pipeline handles starts with `http://` or
`https://`), the netloc is the text between the first occurrence of
the separator and the next `/`, `?` or `#`.  We embed exactly that
case; a URL without a separator yields the empty netloc, matching
`urlparse` on plain relative references. -/

/-- The characters after the first occurrence of the
scheme separator `"://"` (empty if there is none). -/
def afterSchemeSep : List Char → List Char
  | [] => []
  | ':' :: '/' :: '/' :: rest => rest
  | _ :: rest => afterSchemeSep rest

/-- `urlparse(url).netloc.lower()` for scheme-qualified URLs. -/
def getDomainFromUrl (url : String) : String :=
  ⟨((afterSchemeSep url.data).takeWhile
      (fun c => !(c == '/' || c == '?' || c == '#'))).map Char.toLower⟩

/-! ## Parent/child deduplication (`deduplicate_parent_child_urls`) -/

/-- The normalization of one URL inside the dedup pass:
`url.rstrip('/').split('#')[0].split('?')[0]`, operations applied in
exactly that order (so a trailing slash is removed before, not after,
the fragment and query are cut off). -/
def normalizeUrl (url : String) : String :=
  takeUntilChar '?' (takeUntilChar '#' (rstripSlashes url))

/-- `len([seg for seg in normalized.split('/')[3:] if seg])`:
the number of non-empty path segments of a normalized URL, skipping
the scheme and authority fields of `split('/')`. -/
def pathSegments (normalized : String) : Nat :=
  (((splitChar '/' normalized.data).drop 3).filter (fun seg => seg ≠ [])).length

/-- Stable insertion into a list sorted by ascending normalized
length; together with `sortByLen` this realizes Python's stable
`list.sort(key=lambda x: len(x[0]))`.  The inserted pair skips only
entries of strictly smaller length: since `sortByLen` inserts the
earlier input elements into the sorted later ones, an element lands
before every equal-length element that followed it in the input, so
ties keep their input order exactly as Python's stable sort does. -/
def insertByLen (p : String × String) : List (String × String) → List (String × String)
  | [] => [p]
  | q :: qs => if q.1.length < p.1.length then q :: insertByLen p qs else p :: q :: qs

/-- Stable sort of (normalized, original) pairs by ascending length of
the normalized form. -/
def sortByLen : List (String × String) → List (String × String)
  | [] => []
  | p :: ps => insertByLen p (sortByLen ps)

/-- The inner loop of the dedup pass: a kept parent marks as excluded
every normalized form in the whole sorted list that is a different URL,
extends `parent ++ "/"`, and is not excluded yet. -/
def markChildren (parent : String) :
    List (String × String) → List String → List String
  | [], exc => exc
  | pr :: rest, exc =>
    markChildren parent rest
      (if pr.1 ≠ parent ∧ isPrefixCh (parent ++ "/").data pr.1.data = true ∧ pr.1 ∉ exc
       then pr.1 :: exc else exc)

/-- The outer sweep of the dedup pass over the length-sorted list:
skip entries whose normalized form is excluded, keep the rest, and
let a kept entry with at least one non-empty path segment mark its
children. -/
def dedupLoop (all : List (String × String)) :
    List (String × String) → List String → List String
  | [], _ => []
  | (norm, orig) :: rest, excluded =>
    if norm ∈ excluded then dedupLoop all rest excluded
    else
      orig ::
        dedupLoop all rest
          (if 1 ≤ pathSegments norm then markChildren norm all excluded else excluded)

/-- `AsyncURLProcessor.deduplicate_parent_child_urls`. -/
def deduplicate_parent_child_urls (urls : List String) : List String :=
  match urls with
  | [] => []
  | _ :: _ =>
    let sorted := sortByLen (urls.map (fun u => (normalizeUrl u, u)))
    dedupLoop sorted sorted []

/-! ## Outcome classification (`_try_approach` / `_process_response`)

`_try_approach` returns a triple whose first component is `True`
(success), the string `"invalid"` (terminal invalid), or `False`
(retryable failure); we embed it as `TryResult`.  What the network did
for one attempt is a `TransportResult`: an HTTP response with a status
and either a readable body containing `count` pattern matches or an
unreadable body (`readCount = none`, the classifier-error case of
`response.text()` raising), or one of the exception classes caught by
`_try_approach` (`asyncio.TimeoutError`, `aiohttp.ClientError`, any
other exception). -/

/-- The first component of `_try_approach`'s return triple. -/
inductive TryResult where
  | success (count : Nat)
  | invalid (count : Nat)
  | failed
deriving DecidableEq, Repr

/-- What the transport layer did for one attempt. -/
inductive TransportResult where
  | response (status : Nat) (readCount : Option Nat)
  | timeoutError
  | clientError
  | otherError
deriving DecidableEq, Repr

/-- An entry of `self.valid_urls`. -/
structure ValidRecord where
  url : String
  count : Nat
  approach : String
deriving DecidableEq, Repr

/-- An entry of `self.retry_queue`. -/
structure RetryItem where
  url : String
  approach : String
  domain : String
deriving DecidableEq, Repr

/-- The shared mutable state of `AsyncURLProcessor` that the claims
are about: the approach memory (a `domain → approach` map embedded as
an update-in-place association list), the counters, the result store,
the retry queue, plus two pieces of instrumentation that exist only in
the model: `calls` counts, per (domain, approach) pair, how many
attempts have been issued (it indexes the transport oracle), and
`trace` records every attempt issued as an (url, approach) pair.
Logging state, per-approach statistics, header rotation and the
asyncio gates are elided. -/
structure RunState where
  memory : List (String × String)
  processedCount : Nat
  validCount : Nat
  errorCount : Nat
  validUrls : List ValidRecord
  retryQueue : List RetryItem
  retryProcessed : Nat
  retrySuccess : Nat
  calls : List ((String × String) × Nat)
  trace : List (String × String)
deriving DecidableEq, Repr

/-- A fresh processor: empty memory, zero counters, empty queues. -/
def initRunState : RunState :=
  { memory := [], processedCount := 0, validCount := 0, errorCount := 0,
    validUrls := [], retryQueue := [], retryProcessed := 0, retrySuccess := 0,
    calls := [], trace := [] }

/-- `ApproachMemory.get_successful_approach` (`self.memory.get(domain)`). -/
def memGet (mem : List (String × String)) (d : String) : Option String :=
  match mem with
  | [] => none
  | p :: ps => if p.1 = d then some p.2 else memGet ps d

/-- `ApproachMemory.record_successful_approach`
(`self.memory[domain] = approach`, dict update semantics). -/
def memPut (mem : List (String × String)) (d a : String) : List (String × String) :=
  match mem with
  | [] => [(d, a)]
  | p :: ps => if p.1 = d then (d, a) :: ps else p :: memPut ps d a

/-- How many attempts have been issued so far for a
(domain, approach) pair. -/
def getCalls (l : List ((String × String) × Nat)) (d a : String) : Nat :=
  match l with
  | [] => 0
  | p :: ps => if p.1 = (d, a) then p.2 else getCalls ps d a

/-- Record one more attempt for a (domain, approach) pair. -/
def bumpCalls (l : List ((String × String) × Nat)) (d a : String) :
    List ((String × String) × Nat) :=
  match l with
  | [] => [((d, a), 1)]
  | p :: ps => if p.1 = (d, a) then (p.1, p.2 + 1) :: ps else p :: bumpCalls ps d a

/-- `_process_response`: classify an HTTP response and apply its
counter side effects.  Status 200 with a readable body counts the
pattern matches: reaching `min_count` is a success (recording the URL
in the result store), below it is terminal invalid; an unreadable body
returns invalid with count 0 before any counter is touched; statuses
429/503/502/504 are retryable failures; every other status is terminal
invalid and counts as an error. -/
def processResponseStep (minCount status : Nat) (readCount : Option Nat)
    (url approach : String) (st : RunState) : TryResult × RunState :=
  if status = 200 then
    match readCount with
    | none => (.invalid 0, st)
    | some count =>
      if minCount ≤ count then
        (.success count,
         { st with processedCount := st.processedCount + 1,
                   validCount := st.validCount + 1,
                   validUrls := st.validUrls ++ [⟨pyStrip url, count, approach⟩] })
      else
        (.invalid count, { st with processedCount := st.processedCount + 1 })
  else if status ∈ [429, 503, 502, 504] then
    (.failed, { st with processedCount := st.processedCount + 1 })
  else
    (.invalid 0,
     { st with processedCount := st.processedCount + 1,
               errorCount := st.errorCount + 1 })

/-- `_try_approach` under `PLAYWRIGHT_AVAILABLE = False` (the
configuration all orchestration theorems below use): the `simple` and
`proxy` approaches issue the request and classify the response via
`_process_response`; a timeout, client error or other exception is a
retryable failure with no side effect; any other approach string hits
the unsupported-approach branch and fails. -/
def tryApproachStep (minCount : Nat) (url approach : String)
    (t : TransportResult) (st : RunState) : TryResult × RunState :=
  if approach = "simple" ∨ approach = "proxy" then
    match t with
    | .response status readCount => processResponseStep minCount status readCount url approach st
    | .timeoutError => (.failed, st)
    | .clientError => (.failed, st)
    | .otherError => (.failed, st)
  else
    (.failed, st)

/-! ## Phase-1 orchestration (`validate_single_url`) -/

/-- The transport oracle: the result of the `n`-th attempt issued for
a (domain, approach) pair. -/
def Oracle : Type := String → String → Nat → TransportResult

/-- The full registry: `all_approaches` as built in
`validate_single_url`, with the four Playwright variants appended when
Playwright is available. -/
def allApproaches (playwrightAvailable : Bool) : List String :=
  ["simple", "proxy"] ++
    (if playwrightAvailable then
       ["playwright_headless_no_proxy", "playwright_headless_proxy",
        "playwright_visible_no_proxy", "playwright_visible_proxy"]
     else [])

/-- The candidate list of `validate_single_url`: the remembered
approach alone when the memory holds a truthy entry that is in the
registry, and the literal fallback `["simple", "proxy"]` in every
other case. -/
def candidateApproaches (playwrightAvailable : Bool) (sa : Option String) : List String :=
  match sa with
  | some s =>
    if s ≠ "" ∧ s ∈ allApproaches playwrightAvailable then [s] else ["simple", "proxy"]
  | none => ["simple", "proxy"]

/-- The memory-update guard on the success path:
`if not successful_approach or successful_approach != approach`. -/
def recordMemory (sa : Option String) (approach : String) : Bool :=
  match sa with
  | none => true
  | some s => s = "" || s ≠ approach

/-- The phase-1 candidate loop of `validate_single_url`: try the
candidates strictly in order; a success records the approach in memory
(under the `recordMemory` guard) and stops; an invalid stops without
touching memory; a failure falls through to the next candidate. -/
def loopCandidates (minCount : Nat) (o : Oracle) (url domain : String)
    (sa : Option String) : List String → RunState → TryResult × RunState
  | [], st => (.failed, st)
  | approach :: rest, st =>
    match tryApproachStep minCount url approach
        (o domain approach (getCalls st.calls domain approach))
        { st with calls := bumpCalls st.calls domain approach,
                  trace := st.trace ++ [(url, approach)] } with
    | (.success count, st2) =>
      (.success count,
       if recordMemory sa approach
       then { st2 with memory := memPut st2.memory domain approach }
       else st2)
    | (.invalid count, st2) => (.invalid count, st2)
    | (.failed, st2) => loopCandidates minCount o url domain sa rest st2

/-- The candidate loop of `validate_single_url` with its inputs
resolved from the state: domain from the URL, remembered approach from
memory, candidates from `candidateApproaches` (Playwright
unavailable). -/
def phase1Loop (minCount : Nat) (o : Oracle) (url : String) (st : RunState) :
    TryResult × RunState :=
  let domain := getDomainFromUrl url
  let sa := memGet st.memory domain
  loopCandidates minCount o url domain sa (candidateApproaches false sa) st

/-- The retry-queue entry built on the all-candidates-failed path:
`retry_approach = successful_approach if successful_approach else approaches[0]`. -/
def phase1RetryItem (st : RunState) (url : String) : RetryItem :=
  let domain := getDomainFromUrl url
  let sa := memGet st.memory domain
  let approaches := candidateApproaches false sa
  { url := pyStrip url,
    approach := match sa with
      | some s => if s = "" then approaches.headD "" else s
      | none => approaches.headD "",
    domain := domain }

/-- `validate_single_url`, normal path (no unhandled exception): run
the candidate loop; a success returns `(True, count, url)`, an invalid
returns `(False, count, url)`, and if every candidate failed the URL
is counted as processed and as an error and is appended to the retry
queue. -/
def validateSingleUrl (minCount : Nat) (o : Oracle) (url : String) (st : RunState) :
    (Bool × Nat × String) × RunState :=
  match phase1Loop minCount o url st with
  | (.success count, st') => ((true, count, pyStrip url), st')
  | (.invalid count, st') => ((false, count, pyStrip url), st')
  | (.failed, st') =>
    ((false, 0, pyStrip url),
     { st' with processedCount := st'.processedCount + 1,
                errorCount := st'.errorCount + 1,
                retryQueue := st'.retryQueue ++ [phase1RetryItem st url] })

/-- The per-URL exception handler of `validate_single_url` (the outer
`except` clause): count the URL as processed and as an error and
return the failure triple; the retry queue is not touched. -/
def validateUrlExceptionHandler (url : String) (st : RunState) :
    (Bool × Nat × String) × RunState :=
  ((false, 0, pyStrip url),
   { st with processedCount := st.processedCount + 1,
             errorCount := st.errorCount + 1 })

/-! ## Phase-2 orchestration (`retry_single_url`) -/

/-- `retry_single_url`: one attempt with the approach fixed in the
queue entry.  On success the result is appended to the result store
again (in addition to the append `_process_response` already
performed) and `valid_count` is incremented again; on invalid or
failure nothing further happens.  The approach memory is never
consulted or updated. -/
def retrySingleUrl (minCount : Nat) (o : Oracle) (item : RetryItem) (st : RunState) :
    (Bool × Nat × String) × RunState :=
  match tryApproachStep minCount item.url item.approach
      (o item.domain item.approach (getCalls st.calls item.domain item.approach))
      { st with calls := bumpCalls st.calls item.domain item.approach,
                trace := st.trace ++ [(item.url, item.approach)] } with
  | (.success count, st2) =>
    ((true, count, pyStrip item.url),
     { st2 with retryProcessed := st2.retryProcessed + 1,
                retrySuccess := st2.retrySuccess + 1,
                validCount := st2.validCount + 1,
                validUrls := st2.validUrls ++ [⟨pyStrip item.url, count, item.approach⟩] })
  | (.invalid count, st2) =>
    ((false, count, pyStrip item.url), { st2 with retryProcessed := st2.retryProcessed + 1 })
  | (.failed, st2) =>
    ((false, 0, pyStrip item.url), { st2 with retryProcessed := st2.retryProcessed + 1 })

/-- Phase 1 of `process_all_urls_async`, serialized: validate the
URLs in order. -/
def runPhase1 (minCount : Nat) (o : Oracle) (urls : List String) (st : RunState) : RunState :=
  urls.foldl (fun s url => (validateSingleUrl minCount o url s).2) st

/-- Phase 2 of `process_all_urls_async`, serialized: one pass over the
retry queue, one `retry_single_url` call per entry. -/
def runPhase2 (minCount : Nat) (o : Oracle) (st : RunState) : RunState :=
  st.retryQueue.foldl (fun s item => (retrySingleUrl minCount o item s).2) st

/-- The end-of-run deduplication block of `process_all_urls_async`:
dedup the valid URL list, rebuild the records by first match, and
install the rebuilt list only when something was removed. -/
def finalizeResults (st : RunState) : RunState :=
  match st.validUrls with
  | [] => st
  | _ :: _ =>
    let validUrlList := st.validUrls.map (fun r => r.url)
    let deduped := deduplicate_parent_child_urls validUrlList
    let dedupedData := deduped.filterMap (fun u => st.validUrls.find? (fun r => r.url == u))
    if 0 < st.validUrls.length - dedupedData.length then
      { st with validUrls := dedupedData, validCount := dedupedData.length }
    else st

/-! ## Adaptive per-domain delay (`adaptive_delay_for_domain`)

The per-domain feedback state is the consecutive error count and the
current delay.  `get_domain_semaphore` initializes the delay to
`base_delay = 0.5` and the error count to `0`.  The float constants are
carried exactly over `ℚ`: `0.5 = 1/2`, `0.8 = 4/5`, `10.0 = 10`. -/

/-- `self.base_delay` (0.5 seconds). -/
def baseDelay : ℚ := 1 / 2

/-- The cap of the exponential backoff (10.0 seconds). -/
def maxDelay : ℚ := 10

/-- The error-count/delay state of one domain. -/
structure DomainState where
  errors : Nat
  delay : ℚ
deriving DecidableEq, Repr

/-- The state `get_domain_semaphore` creates on first encounter. -/
def initDomainState : DomainState := { errors := 0, delay := baseDelay }

/-- The `had_error=True` branch of `adaptive_delay_for_domain`:
bump the error count and set
`delay = min(base_delay * 2 ** min(error_count - 1, 4), 10.0)`. -/
def onErrorDelay (s : DomainState) : DomainState :=
  let errorCount := s.errors + 1
  { errors := errorCount,
    delay := min (baseDelay * 2 ^ min (errorCount - 1) 4) maxDelay }

/-- The success branch of `adaptive_delay_for_domain`: when the
current delay is above base, decay it by
`delay = max(delay * 0.8, base_delay)`; otherwise leave it alone. -/
def onSuccessDelay (s : DomainState) : DomainState :=
  if baseDelay < s.delay then { s with delay := max (s.delay * (4 / 5)) baseDelay } else s

/-- A domain's state after a sequence of events
(`true` = error, `false` = success), starting from the state created
on first encounter. -/
def runDelays (evs : List Bool) : DomainState :=
  evs.foldl (fun s e => if e then onErrorDelay s else onSuccessDelay s) initDomainState

/-! ## Report writer (`save_progress`)

`save_progress` writes the header of `valid_urls.txt` and, in its
success-rate line, evaluates `self.valid_count/self.processed_count`
with no guard; with `processed_count = 0` Python raises
`ZeroDivisionError` there and the report is never completed.  (The
per-approach success rates further down are guarded with
`if attempts > 0 else 0` and cannot raise.)  The file system is
elided: the function returns the report contents, or the exception. -/

/-- The one Python exception the report writer can raise. -/
inductive PyError where
  | zeroDivisionError
deriving DecidableEq, Repr

/-- The contents of the report `save_progress` writes. -/
structure FinalReport where
  minCountCfg : Nat
  totalProcessed : Nat
  validFound : Nat
  errorTotal : Nat
  successRatePct : ℚ
  domainsLearned : Nat
  entries : List ValidRecord
deriving DecidableEq, Repr

/-- Stable insertion for Python's
`sorted(valid_urls, key=lambda x: x['count'], reverse=True)`.  The
inserted record skips only records of strictly larger count, so
records of equal count keep their input order, matching Python's
stable sort. -/
def insertByCountDesc (r : ValidRecord) : List ValidRecord → List ValidRecord
  | [] => [r]
  | q :: qs => if r.count < q.count then q :: insertByCountDesc r qs else r :: q :: qs

/-- Stable descending sort of the result records by match count. -/
def sortByCountDesc : List ValidRecord → List ValidRecord
  | [] => []
  | r :: rs => insertByCountDesc r (sortByCountDesc rs)

/-- `save_progress`: raises `ZeroDivisionError` at the success-rate
line when nothing was processed, otherwise emits the report with the
result records sorted by count descending. -/
def save_progress (minCountCfg : Nat) (st : RunState) : Except PyError FinalReport :=
  if st.processedCount = 0 then Except.error PyError.zeroDivisionError
  else Except.ok
    { minCountCfg := minCountCfg,
      totalProcessed := st.processedCount,
      validFound := st.validCount,
      errorTotal := st.errorCount,
      successRatePct := (st.validCount : ℚ) / (st.processedCount : ℚ) * 100,
      domainsLearned := st.memory.length,
      entries := sortByCountDesc st.validUrls }

/-! ## Concrete fixtures used by the settled claims -/

/-- The deterministic fixture strategy of the spec's scenario: for
every (domain, approach) pair the first attempt fails with a transport
timeout and every later attempt returns HTTP 200 with 30 pattern
matches (above the threshold 25). -/
def fixtureOracle : Oracle := fun _ _ n =>
  if n = 0 then .timeoutError else .response 200 (some 30)

/-- Five URLs across two domains (three on `a`, two on `b`). -/
def scenarioUrls : List String :=
  ["https://a/1", "https://a/2", "https://a/3", "https://b/1", "https://b/2"]

/-- The state after phase 1 of the scenario. -/
def scenarioAfterP1 : RunState := runPhase1 25 fixtureOracle scenarioUrls initRunState

/-- The state after phase 2 of the scenario. -/
def scenarioFinal : RunState := runPhase2 25 fixtureOracle scenarioAfterP1

/-- A transport oracle whose `simple` approach always answers HTTP 404
(ServerFatal) and whose other approaches answer HTTP 200 with 30
matches. -/
def serverFatalOracle : Oracle := fun _ a _ =>
  if a = "simple" then .response 404 (some 0) else .response 200 (some 30)

/-- A transport oracle that always answers HTTP 200 with 30 matches. -/
def alwaysOkOracle : Oracle := fun _ _ _ => .response 200 (some 30)

/-! ## Helper lemmas about the orchestration -/

/-- One attempt (request plus response classification) never touches
the retry queue, the memory, the trace, the call counters or the
phase-2 counters. -/
theorem tryApproachStep_preserves (m : Nat) (url a : String) (t : TransportResult)
    (st : RunState) :
    (tryApproachStep m url a t st).2.retryQueue = st.retryQueue ∧
    (tryApproachStep m url a t st).2.memory = st.memory ∧
    (tryApproachStep m url a t st).2.trace = st.trace ∧
    (tryApproachStep m url a t st).2.calls = st.calls ∧
    (tryApproachStep m url a t st).2.retryProcessed = st.retryProcessed ∧
    (tryApproachStep m url a t st).2.retrySuccess = st.retrySuccess := by
  cases t with
  | response status rc =>
    cases rc with
    | none => simp only [tryApproachStep, processResponseStep]; split_ifs <;> simp
    | some c => simp only [tryApproachStep, processResponseStep]; split_ifs <;> simp
  | timeoutError => simp only [tryApproachStep]; split_ifs <;> simp
  | clientError => simp only [tryApproachStep]; split_ifs <;> simp
  | otherError => simp only [tryApproachStep]; split_ifs <;> simp

/-- The phase-1 candidate loop never touches the retry queue or the
phase-2 counters. -/
theorem loopCandidates_preserves (m : Nat) (o : Oracle) (url d : String)
    (sa : Option String) :
    ∀ (cands : List String) (st : RunState),
      (loopCandidates m o url d sa cands st).2.retryQueue = st.retryQueue ∧
      (loopCandidates m o url d sa cands st).2.retryProcessed = st.retryProcessed ∧
      (loopCandidates m o url d sa cands st).2.retrySuccess = st.retrySuccess := by
  intro cands
  induction cands with
  | nil => intro st; exact ⟨rfl, rfl, rfl⟩
  | cons a rest ih =>
    intro st
    simp only [loopCandidates]
    split <;> rename_i st2 heq
    · have hp := tryApproachStep_preserves m url a
        (o d a (getCalls st.calls d a))
        { st with calls := bumpCalls st.calls d a, trace := st.trace ++ [(url, a)] }
      rw [heq] at hp
      split <;> simp_all
    · have hp := tryApproachStep_preserves m url a
        (o d a (getCalls st.calls d a))
        { st with calls := bumpCalls st.calls d a, trace := st.trace ++ [(url, a)] }
      rw [heq] at hp
      simp_all
    · have hp := tryApproachStep_preserves m url a
        (o d a (getCalls st.calls d a))
        { st with calls := bumpCalls st.calls d a, trace := st.trace ++ [(url, a)] }
      rw [heq] at hp
      have hrest := ih st2
      simp_all

/-- The phase-1 candidate loop appends at most one trace entry per
candidate. -/
theorem loopCandidates_trace (m : Nat) (o : Oracle) (url d : String)
    (sa : Option String) :
    ∀ (cands : List String) (st : RunState),
      ∃ t, (loopCandidates m o url d sa cands st).2.trace = st.trace ++ t ∧
        t.length ≤ cands.length := by
  intro cands
  induction cands with
  | nil => intro st; exact ⟨[], by simp [loopCandidates]⟩
  | cons a rest ih =>
    intro st
    simp only [loopCandidates]
    split <;> rename_i st2 heq <;>
      (have hp := tryApproachStep_preserves m url a
          (o d a (getCalls st.calls d a))
          { st with calls := bumpCalls st.calls d a, trace := st.trace ++ [(url, a)] }
       rw [heq] at hp)
    · refine ⟨[(url, a)], ?_, by simp⟩
      split <;> simp_all
    · exact ⟨[(url, a)], by simp_all, by simp⟩
    · obtain ⟨t, ht, hlen⟩ := ih st2
      refine ⟨(url, a) :: t, ?_, by simpa using hlen⟩
      rw [ht]
      have : st2.trace = st.trace ++ [(url, a)] := by simp_all
      simp [this]

/-- `retry_single_url` issues exactly one attempt (with the approach
stored in the queue entry), never touches the retry queue, and never
touches the approach memory. -/
theorem retrySingleUrl_step (m : Nat) (o : Oracle) (item : RetryItem) (st : RunState) :
    (retrySingleUrl m o item st).2.trace = st.trace ++ [(item.url, item.approach)] ∧
    (retrySingleUrl m o item st).2.retryQueue = st.retryQueue ∧
    (retrySingleUrl m o item st).2.memory = st.memory := by
  simp only [retrySingleUrl]
  split <;> rename_i st2 heq <;>
    (have hp := tryApproachStep_preserves m item.url item.approach
        (o item.domain item.approach (getCalls st.calls item.domain item.approach))
        { st with calls := bumpCalls st.calls item.domain item.approach,
                  trace := st.trace ++ [(item.url, item.approach)] }
     rw [heq] at hp
     simp_all)

/-- Folding `retry_single_url` over a queue issues exactly one attempt
per entry, in order, and leaves the retry queue unchanged. -/
theorem foldRetry_spec (m : Nat) (o : Oracle) :
    ∀ (q : List RetryItem) (st : RunState),
      (q.foldl (fun s item => (retrySingleUrl m o item s).2) st).trace
        = st.trace ++ q.map (fun i => (i.url, i.approach)) ∧
      (q.foldl (fun s item => (retrySingleUrl m o item s).2) st).retryQueue
        = st.retryQueue := by
  intro q
  induction q with
  | nil => intro st; simp
  | cons i rest ih =>
    intro st
    obtain ⟨h1, h2, _⟩ := retrySingleUrl_step m o i st
    obtain ⟨ih1, ih2⟩ := ih ((retrySingleUrl m o i st).2)
    refine ⟨?_, ?_⟩
    · simp only [List.foldl_cons, List.map_cons]
      rw [ih1, h1, List.append_assoc, List.singleton_append]
    · simp only [List.foldl_cons]
      rw [ih2, h2]

/-! ## C1 -/

/-- C1: the outcome classification follows the fixed policy.  An HTTP
200 response with `count ≥ threshold` is a success carrying that count
(in particular `count = threshold` is a success); 200 with a smaller
count is invalid; the statuses 429, 503, 502, 504 are retryable
failures, as are transport timeouts, client errors and other
exceptions; every other non-200 status is terminal invalid. -/
theorem classification_policy (m status c : Nat) (rc : Option Nat)
    (url approach : String) (st : RunState) :
    ((processResponseStep m 200 (some c) url approach st).1 =
       if m ≤ c then TryResult.success c else TryResult.invalid c) ∧
    (processResponseStep m 200 (some m) url approach st).1 = TryResult.success m ∧
    (status ∈ [429, 503, 502, 504] →
       (processResponseStep m status rc url approach st).1 = TryResult.failed) ∧
    (status ≠ 200 → status ∉ [429, 503, 502, 504] →
       (processResponseStep m status rc url approach st).1 = TryResult.invalid 0) ∧
    (tryApproachStep m url approach TransportResult.timeoutError st).1 = TryResult.failed ∧
    (tryApproachStep m url approach TransportResult.clientError st).1 = TryResult.failed ∧
    (tryApproachStep m url approach TransportResult.otherError st).1 = TryResult.failed := by
  refine ⟨?_, ?_, ?_, ?_, ?_, ?_, ?_⟩
  · simp only [processResponseStep, if_pos rfl]
    split_ifs <;> simp
  · simp [processResponseStep]
  · intro h
    fin_cases h <;> simp [processResponseStep]
  · intro h1 h2
    simp [processResponseStep, h1, h2]
  · simp only [tryApproachStep]; split_ifs <;> rfl
  · simp only [tryApproachStep]; split_ifs <;> rfl
  · simp only [tryApproachStep]; split_ifs <;> rfl

/-- Witness for C1 at concrete inputs: status 429 is a retryable
failure, status 404 is terminal invalid, and a count exactly at the
threshold is a success. -/
theorem classification_policy_witness :
    (processResponseStep 25 429 (some 0) "https://a/1" "simple" initRunState).1
      = TryResult.failed ∧
    (processResponseStep 25 404 (some 0) "https://a/1" "simple" initRunState).1
      = TryResult.invalid 0 ∧
    (processResponseStep 25 200 (some 25) "https://a/1" "simple" initRunState).1
      = TryResult.success 25 :=
  ⟨(classification_policy 25 429 0 (some 0) "https://a/1" "simple" initRunState).2.2.1
      (by decide),
   (classification_policy 25 404 0 (some 0) "https://a/1" "simple" initRunState).2.2.2.1
      (by decide) (by decide),
   (classification_policy 25 404 25 (some 0) "https://a/1" "simple" initRunState).2.1⟩

/-! ## C10 -/

/-- C10: `save_progress` divides the valid count by the processed
count without a guard: invoked with `processed_count = 0` it raises
`ZeroDivisionError`, and it completes and produces the report exactly
when at least one URL was processed. -/
theorem save_progress_requires_processed (minCountCfg : Nat) (st : RunState) :
    (save_progress minCountCfg st = Except.error PyError.zeroDivisionError ↔
       st.processedCount = 0) ∧
    ((∃ r, save_progress minCountCfg st = Except.ok r) ↔ 1 ≤ st.processedCount) := by
  constructor
  · constructor
    · intro h
      by_contra hne
      simp [save_progress, hne] at h
    · intro h
      simp [save_progress, h]
  · constructor
    · rintro ⟨r, hr⟩
      by_contra hlt
      have hz : st.processedCount = 0 := by omega
      simp [save_progress, hz] at hr
    · intro h
      have hne : st.processedCount ≠ 0 := by omega
      unfold save_progress
      rw [if_neg hne]
      exact ⟨_, rfl⟩

/-! ## C2 -/

/-- C2 counterexample: with Playwright available and no remembered
approach for the domain, the candidate list built by
`validate_single_url` is the literal fallback `["simple", "proxy"]`,
not the full default-ordered registry including the Playwright
variants as the claim states. -/
theorem candidate_list_counterexample :
    candidateApproaches true none = ["simple", "proxy"] ∧
    allApproaches true =
      ["simple", "proxy", "playwright_headless_no_proxy", "playwright_headless_proxy",
       "playwright_visible_no_proxy", "playwright_visible_proxy"] ∧
    candidateApproaches true none ≠ allApproaches true := by
  decide

/-- C2 (amended): the candidate list is exactly the one remembered
approach when memory holds a non-empty entry that is in the registry;
in every other case (no entry, empty entry, or an entry not in the
registry) it is the literal fallback `["simple", "proxy"]`, which
omits the Playwright variants even when they are available. -/
theorem candidate_list_amended (pw : Bool) (sa : Option String) (s : String) :
    (sa = some s → s ≠ "" → s ∈ allApproaches pw → candidateApproaches pw sa = [s]) ∧
    (sa = some s → s ∉ allApproaches pw → candidateApproaches pw sa = ["simple", "proxy"]) ∧
    (sa = some "" → candidateApproaches pw sa = ["simple", "proxy"]) ∧
    (sa = none → candidateApproaches pw sa = ["simple", "proxy"]) ∧
    "playwright_headless_no_proxy" ∉ candidateApproaches pw none := by
  refine ⟨?_, ?_, ?_, ?_, ?_⟩
  · rintro rfl h1 h2
    simp [candidateApproaches, h1, h2]
  · rintro rfl h
    simp [candidateApproaches, h]
  · rintro rfl
    simp [candidateApproaches]
  · rintro rfl
    rfl
  · simp [candidateApproaches]

/-- Witness for C2 (amended): a remembered registered approach is used
alone; a remembered approach outside the registry falls back. -/
theorem candidate_list_amended_witness :
    candidateApproaches true (some "proxy") = ["proxy"] ∧
    candidateApproaches false (some "playwright_headless_proxy") = ["simple", "proxy"] :=
  ⟨(candidate_list_amended true (some "proxy") "proxy").1 rfl (by decide) (by decide),
   (candidate_list_amended false (some "playwright_headless_proxy")
      "playwright_headless_proxy").2.1 rfl (by decide)⟩

/-! ## C3 -/

/-- C3 counterexample: a first candidate whose attempt ends in
ServerFatal (HTTP 404) terminates the URL's phase-1 processing at that
candidate.  Only one attempt is issued (the trace has a single entry),
the URL ends Invalid, and the second candidate is never tried even
though it would have succeeded. -/
theorem serverfatal_stops_loop_counterexample :
    (validateSingleUrl 25 serverFatalOracle "https://a/1" initRunState).1
      = (false, 0, "https://a/1") ∧
    (validateSingleUrl 25 serverFatalOracle "https://a/1" initRunState).2.trace
      = [("https://a/1", "simple")] ∧
    candidateApproaches false
        (memGet initRunState.memory (getDomainFromUrl "https://a/1"))
      = ["simple", "proxy"] ∧
    (tryApproachStep 25 "https://a/1" "proxy" (serverFatalOracle "a" "proxy" 0)
        initRunState).1 = TryResult.success 30 := by
  decide

/-- C3 (amended): within the phase-1 candidate loop, a candidate whose
attempt ends in ServerFatal (a non-2xx status other than
429/502/503/504) terminates the loop immediately with an Invalid
outcome and count 0 — it does not fall through to the remaining
candidates; only a candidate whose attempt ends Failed permits falling
through to the next candidate. -/
theorem serverfatal_amended (m : Nat) (o : Oracle) (url d : String) (sa : Option String)
    (a : String) (rest : List String) (st : RunState) (status : Nat) (rc : Option Nat) :
    (o d a (getCalls st.calls d a) = TransportResult.response status rc →
       status ≠ 200 → status ∉ [429, 503, 502, 504] → (a = "simple" ∨ a = "proxy") →
       loopCandidates m o url d sa (a :: rest) st =
         (TryResult.invalid 0,
          { st with calls := bumpCalls st.calls d a,
                    trace := st.trace ++ [(url, a)],
                    processedCount := st.processedCount + 1,
                    errorCount := st.errorCount + 1 })) ∧
    ((tryApproachStep m url a (o d a (getCalls st.calls d a))
        { st with calls := bumpCalls st.calls d a,
                  trace := st.trace ++ [(url, a)] }).1 = TryResult.failed →
       loopCandidates m o url d sa (a :: rest) st =
         loopCandidates m o url d sa rest
           (tryApproachStep m url a (o d a (getCalls st.calls d a))
             { st with calls := bumpCalls st.calls d a,
                       trace := st.trace ++ [(url, a)] }).2) := by
  constructor
  · intro ho h200 hretry hsupported
    simp only [loopCandidates, ho, tryApproachStep, processResponseStep]
    rw [if_pos hsupported, if_neg h200, if_neg hretry]
  · intro hfailed
    simp only [loopCandidates]
    split <;> rename_i st2 heq <;> rw [heq] at hfailed <;> simp_all

/-- Witness for C3 (amended) at a concrete ServerFatal input and a
concrete Failed input. -/
theorem serverfatal_amended_witness :
    loopCandidates 25 serverFatalOracle "https://a/1" "a" none ["simple", "proxy"]
        initRunState =
      (TryResult.invalid 0,
       { initRunState with calls := bumpCalls initRunState.calls "a" "simple",
                           trace := initRunState.trace ++ [("https://a/1", "simple")],
                           processedCount := initRunState.processedCount + 1,
                           errorCount := initRunState.errorCount + 1 }) ∧
    loopCandidates 25 fixtureOracle "https://a/1" "a" none ["simple", "proxy"]
        initRunState =
      loopCandidates 25 fixtureOracle "https://a/1" "a" none ["proxy"]
        (tryApproachStep 25 "https://a/1" "simple"
          (fixtureOracle "a" "simple" (getCalls initRunState.calls "a" "simple"))
          { initRunState with calls := bumpCalls initRunState.calls "a" "simple",
                              trace := initRunState.trace ++ [("https://a/1", "simple")] }).2 :=
  ⟨(serverfatal_amended 25 serverFatalOracle "https://a/1" "a" none "simple" ["proxy"]
      initRunState 404 (some 0)).1 (by decide) (by decide) (by decide) (by decide),
   (serverfatal_amended 25 fixtureOracle "https://a/1" "a" none "simple" ["proxy"]
      initRunState 0 none).2 (by decide)⟩

/-! ## C6 -/

/-- C6 counterexample: a phase-2 retry succeeds for a domain with no
recorded success, yet Strategy Memory is not updated — it still holds
no entry for the domain afterwards, contradicting the claim that the
first success for the domain updates the memory. -/
theorem retry_memory_counterexample :
    (retrySingleUrl 25 alwaysOkOracle ⟨"https://a/1", "simple", "a"⟩ initRunState).1.1
      = true ∧
    memGet initRunState.memory "a" = none ∧
    memGet (retrySingleUrl 25 alwaysOkOracle ⟨"https://a/1", "simple", "a"⟩
        initRunState).2.memory "a" = none := by
  decide

/-- C6 (amended): when a phase-2 retry succeeds, the result is merged
into the shared result store (a record with the entry's URL, the
attempt's count and the entry's approach is appended), but Strategy
Memory is never updated during phase 2 — not even when this success is
the first one recorded for the domain. -/
theorem retry_success_merges (m : Nat) (o : Oracle) (item : RetryItem) (st : RunState) :
    (retrySingleUrl m o item st).2.memory = st.memory ∧
    ((retrySingleUrl m o item st).1.1 = true →
       ValidRecord.mk (pyStrip item.url) (retrySingleUrl m o item st).1.2.1 item.approach
         ∈ (retrySingleUrl m o item st).2.validUrls) := by
  refine ⟨(retrySingleUrl_step m o item st).2.2, ?_⟩
  intro hok
  simp only [retrySingleUrl] at hok ⊢
  split at hok <;> rename_i st2 heq <;> simp only [heq] at hok ⊢ <;> simp_all

/-- Witness for C6 (amended): a concrete successful retry whose record
lands in the result store while the memory stays empty. -/
theorem retry_success_merges_witness :
    (retrySingleUrl 25 alwaysOkOracle ⟨"https://a/1", "simple", "a"⟩ initRunState).2.memory
      = initRunState.memory ∧
    ValidRecord.mk "https://a/1"
        (retrySingleUrl 25 alwaysOkOracle ⟨"https://a/1", "simple", "a"⟩ initRunState).1.2.1
        "simple"
      ∈ (retrySingleUrl 25 alwaysOkOracle ⟨"https://a/1", "simple", "a"⟩
          initRunState).2.validUrls :=
  ⟨(retry_success_merges 25 alwaysOkOracle ⟨"https://a/1", "simple", "a"⟩ initRunState).1,
   (retry_success_merges 25 alwaysOkOracle ⟨"https://a/1", "simple", "a"⟩ initRunState).2
     (by decide)⟩

/-! ## C7 -/

/-- C7 (code bug): in the 5-URL/2-domain scenario with the fixture
strategy that fails once per (domain, approach) and then succeeds,
phase 1 yields 3 immediate successes and 2 queued failures, phase 2
resolves both queued retries, and Strategy Memory holds exactly 2
entries — but the final valid count is 7, not 5: each phase-2 success
is recorded twice (once inside `_process_response` and once more in
`retry_single_url`), so both retried URLs carry two result records
each, and the final deduplication pass does not remove the duplicates. -/
theorem scenario_five_urls :
    scenarioAfterP1.validCount = 3 ∧
    scenarioAfterP1.retryQueue.length = 2 ∧
    scenarioFinal.retrySuccess = 2 ∧
    scenarioFinal.memory.length = 2 ∧
    (finalizeResults scenarioFinal).validCount = 7 ∧
    (finalizeResults scenarioFinal).validUrls.length = 7 ∧
    ((finalizeResults scenarioFinal).validUrls.filter
        (fun r => r.url == "https://a/1")).length = 2 ∧
    ((finalizeResults scenarioFinal).validUrls.filter
        (fun r => r.url == "https://b/1")).length = 2 := by
  decide

/-! ## C9 -/

/-- C9: a retry-queue entry is created exactly on the path where the
candidate loop exhausted every candidate with Failed (and the
candidate list is never empty); when processing a URL raises an
unhandled exception caught by the per-URL handler, the URL is counted
as processed and as an error and completes with the Failed-shaped
triple, but the retry queue is left untouched. -/
theorem exception_no_requeue (m : Nat) (o : Oracle) (url : String) (st : RunState) :
    (validateUrlExceptionHandler url st).2.retryQueue = st.retryQueue ∧
    (validateUrlExceptionHandler url st).2.processedCount = st.processedCount + 1 ∧
    (validateUrlExceptionHandler url st).2.errorCount = st.errorCount + 1 ∧
    (validateUrlExceptionHandler url st).1 = (false, 0, pyStrip url) ∧
    (validateSingleUrl m o url st).2.retryQueue =
      st.retryQueue ++
        (match (phase1Loop m o url st).1 with
         | .failed => [phase1RetryItem st url]
         | _ => []) ∧
    (∀ (pw : Bool) (sa : Option String), candidateApproaches pw sa ≠ []) := by
  refine ⟨rfl, rfl, rfl, rfl, ?_, ?_⟩
  · have hq := loopCandidates_preserves m o url (getDomainFromUrl url)
      (memGet st.memory (getDomainFromUrl url))
      (candidateApproaches false (memGet st.memory (getDomainFromUrl url))) st
    rcases h : phase1Loop m o url st with ⟨r, st'⟩
    have hq' : st'.retryQueue = st.retryQueue := by
      have : (phase1Loop m o url st).2.retryQueue = st.retryQueue := hq.1
      rw [h] at this
      exact this
    cases r <;> simp [validateSingleUrl, h, hq']
  · intro pw sa
    cases sa with
    | none => simp [candidateApproaches]
    | some s => simp only [candidateApproaches]; split_ifs <;> simp

/-! ## C4 -/

/-- An error unconditionally re-establishes the delay bounds. -/
theorem onErrorDelay_bounds (s : DomainState) :
    baseDelay ≤ (onErrorDelay s).delay ∧ (onErrorDelay s).delay ≤ maxDelay := by
  constructor
  · simp only [onErrorDelay, le_min_iff]
    constructor
    · have h1 : (2 : ℚ) ^ 0 ≤ 2 ^ min (s.errors + 1 - 1) 4 :=
        pow_le_pow_right₀ (by norm_num) (Nat.zero_le _)
      have h2 : (0 : ℚ) < baseDelay := by norm_num [baseDelay]
      calc baseDelay = baseDelay * 2 ^ 0 := by norm_num
        _ ≤ baseDelay * 2 ^ min (s.errors + 1 - 1) 4 :=
            mul_le_mul_of_nonneg_left h1 (le_of_lt h2)
    · norm_num [baseDelay, maxDelay]
  · exact min_le_right _ _

/-- A success never increases the delay. -/
theorem onSuccessDelay_antitone (s : DomainState) :
    (onSuccessDelay s).delay ≤ s.delay := by
  simp only [onSuccessDelay]
  split_ifs with h
  · have hd : (0 : ℚ) < s.delay := lt_trans (by norm_num [baseDelay]) h
    apply max_le
    · nlinarith
    · exact le_of_lt h
  · exact le_rfl

/-- A success preserves the delay bounds. -/
theorem onSuccessDelay_bounds (s : DomainState)
    (h : baseDelay ≤ s.delay ∧ s.delay ≤ maxDelay) :
    baseDelay ≤ (onSuccessDelay s).delay ∧ (onSuccessDelay s).delay ≤ maxDelay := by
  refine ⟨?_, le_trans (onSuccessDelay_antitone s) h.2⟩
  simp only [onSuccessDelay]
  split_ifs with hgt
  · exact le_max_right _ _
  · exact h.1

/-- Every reachable per-domain state keeps its delay within the
bounds. -/
theorem runDelays_inv (evs : List Bool) :
    baseDelay ≤ (runDelays evs).delay ∧ (runDelays evs).delay ≤ maxDelay := by
  have key : ∀ (l : List Bool) (s : DomainState),
      baseDelay ≤ s.delay ∧ s.delay ≤ maxDelay →
      baseDelay ≤ (l.foldl (fun s e => if e then onErrorDelay s else onSuccessDelay s) s).delay ∧
        (l.foldl (fun s e => if e then onErrorDelay s else onSuccessDelay s) s).delay
          ≤ maxDelay := by
    intro l
    induction l with
    | nil => intro s h; exact h
    | cons e rest ih =>
      intro s h
      simp only [List.foldl_cons]
      apply ih
      cases e
      · simpa using onSuccessDelay_bounds s h
      · simpa using onErrorDelay_bounds s
  exact key evs initDomainState ⟨le_refl _, by norm_num [initDomainState, baseDelay, maxDelay]⟩

/-- C4: the adaptive delay always lies within the band
[base, max] = [1/2, 10]; an error sets it to
`min(base * 2 ** min(errors - 1, 4), 10)` so it is non-decreasing
across consecutive same-domain errors, and a success sets it to
`max(delay * 0.8, base)` so it is non-increasing across consecutive
successes. -/
theorem adaptive_delay_invariant (evs : List Bool) :
    baseDelay ≤ (runDelays evs).delay ∧
    (runDelays evs).delay ≤ maxDelay ∧
    (onErrorDelay (runDelays evs)).delay
      ≤ (onErrorDelay (onErrorDelay (runDelays evs))).delay ∧
    (onSuccessDelay (runDelays evs)).delay ≤ (runDelays evs).delay ∧
    (onErrorDelay (runDelays evs)).errors = (runDelays evs).errors + 1 ∧
    (onErrorDelay (runDelays evs)).delay
      = min (baseDelay * 2 ^ min ((runDelays evs).errors + 1 - 1) 4) maxDelay ∧
    (onSuccessDelay (runDelays evs)).delay
      = max ((runDelays evs).delay * (4 / 5)) baseDelay := by
  obtain ⟨hlo, hhi⟩ := runDelays_inv evs
  refine ⟨hlo, hhi, ?_, onSuccessDelay_antitone _, rfl, rfl, ?_⟩
  · simp only [onErrorDelay, Nat.add_sub_cancel]
    apply min_le_min ?_ le_rfl
    apply mul_le_mul_of_nonneg_left ?_ (by norm_num [baseDelay])
    apply pow_le_pow_right₀ (by norm_num)
    omega
  · simp only [onSuccessDelay]
    split_ifs with hgt
    · rfl
    · have heq : (runDelays evs).delay = baseDelay := le_antisymm (le_of_not_lt hgt) hlo
      rw [heq]
      rw [max_eq_right (by norm_num [baseDelay])]

/-! ## C5 -/

/-- C5: the retry coordinator makes a single pass over the failed
queue with exactly one attempt per entry, each attempt using the
approach fixed in the queue entry (not re-derived from memory), and no
retry ever adds a new queue entry; in phase 1 a URL issues at most one
attempt per candidate and enqueues at most one retry entry, so the
total attempts for a URL are at most the phase-1 candidates tried plus
one. -/
theorem retry_at_most_once (m : Nat) (o : Oracle) (st : RunState) :
    (runPhase2 m o st).trace
      = st.trace ++ st.retryQueue.map (fun i => (i.url, i.approach)) ∧
    (runPhase2 m o st).retryQueue = st.retryQueue ∧
    (∀ (item : RetryItem) (s : RunState),
       (retrySingleUrl m o item s).2.trace = s.trace ++ [(item.url, item.approach)] ∧
       (retrySingleUrl m o item s).2.retryQueue = s.retryQueue) ∧
    (∀ (url : String) (s : RunState),
       (validateSingleUrl m o url s).2.trace.length ≤
         s.trace.length +
           (candidateApproaches false (memGet s.memory (getDomainFromUrl url))).length ∧
       (validateSingleUrl m o url s).2.retryQueue.length ≤ s.retryQueue.length + 1) := by
  refine ⟨(foldRetry_spec m o st.retryQueue st).1, (foldRetry_spec m o st.retryQueue st).2,
    fun item s => ⟨(retrySingleUrl_step m o item s).1, (retrySingleUrl_step m o item s).2.1⟩,
    ?_⟩
  intro url s
  obtain ⟨t, ht, hlen⟩ := loopCandidates_trace m o url (getDomainFromUrl url)
    (memGet s.memory (getDomainFromUrl url))
    (candidateApproaches false (memGet s.memory (getDomainFromUrl url))) s
  have hq := (loopCandidates_preserves m o url (getDomainFromUrl url)
    (memGet s.memory (getDomainFromUrl url))
    (candidateApproaches false (memGet s.memory (getDomainFromUrl url))) s).1
  have hphase : phase1Loop m o url s =
      loopCandidates m o url (getDomainFromUrl url)
        (memGet s.memory (getDomainFromUrl url))
        (candidateApproaches false (memGet s.memory (getDomainFromUrl url))) s := rfl
  rcases hsplit : phase1Loop m o url s with ⟨r, st'⟩
  rw [hphase] at hsplit
  rw [hsplit] at ht hq
  have htlen : st'.trace.length = s.trace.length + t.length := by
    rw [ht, List.length_append]
  have hqlen : st'.retryQueue.length = s.retryQueue.length := by rw [hq]
  rw [← hphase] at hsplit
  cases r with
  | success c =>
    simp only [validateSingleUrl, hsplit]
    exact ⟨by omega, by omega⟩
  | invalid c =>
    simp only [validateSingleUrl, hsplit]
    exact ⟨by omega, by omega⟩
  | failed =>
    simp only [validateSingleUrl, hsplit]
    refine ⟨?_, ?_⟩
    · show st'.trace.length ≤ _
      omega
    · show (st'.retryQueue ++ [phase1RetryItem s url]).length ≤ _
      rw [List.length_append, hqlen]
      simp

/-! ## C8: lemmas about the dedup sweep -/

/-- Appending strings appends their character data. -/
theorem string_data_append (s t : String) : (s ++ t).data = s.data ++ t.data := by
  cases s
  cases t
  rfl

/-- The character data of the slash string. -/
theorem slash_data : ("/" : String).data = ['/'] := rfl

/-- A prefix is never longer than the whole. -/
theorem isPrefixCh_length : ∀ {p s : List Char}, isPrefixCh p s = true → p.length ≤ s.length := by
  intro p
  induction p with
  | nil => intro s _; simp
  | cons a as ih =>
    intro s h
    cases s with
    | nil => simp [isPrefixCh] at h
    | cons b bs =>
      simp only [isPrefixCh, Bool.and_eq_true] at h
      have := ih h.2
      simp only [List.length_cons]
      omega

/-- A strictly longer list is never a prefix. -/
theorem isPrefixCh_false_of_longer {p s : List Char} (h : s.length < p.length) :
    isPrefixCh p s = false := by
  cases hb : isPrefixCh p s
  · rfl
  · exact absurd (isPrefixCh_length hb) (by omega)

/-- `markChildren` only ever grows the excluded set. -/
theorem markChildren_mono (parent : String) :
    ∀ (all : List (String × String)) (exc : List String) (x : String),
      x ∈ exc → x ∈ markChildren parent all exc := by
  intro all
  induction all with
  | nil => intro exc x hx; exact hx
  | cons pr rest ih =>
    intro exc x hx
    simp only [markChildren]
    apply ih
    split_ifs
    · exact List.mem_cons_of_mem _ hx
    · exact hx

/-- `markChildren` excludes every entry of the scanned list whose
normalized form strictly extends `parent ++ "/"`. -/
theorem markChildren_complete (parent : String) :
    ∀ (all : List (String × String)) (exc : List String) (pr : String × String),
      pr ∈ all → isPrefixCh (parent ++ "/").data pr.1.data = true →
      pr.1 ∈ markChildren parent all exc := by
  intro all
  induction all with
  | nil => intro exc pr h; simp at h
  | cons q rest ih =>
    intro exc pr hmem hpre
    rcases List.mem_cons.mp hmem with rfl | hmem'
    · simp only [markChildren]
      by_cases hexc : pr.1 ∈ exc
      · apply markChildren_mono
        split_ifs
        · exact List.mem_cons_of_mem _ hexc
        · exact hexc
      · have hne : pr.1 ≠ parent := by
          intro heq
          have hlen := isPrefixCh_length hpre
          rw [string_data_append, slash_data, heq, List.length_append] at hlen
          simp at hlen
        rw [if_pos ⟨hne, hpre, hexc⟩]
        exact markChildren_mono parent rest _ _ (List.mem_cons_self _ _)
    · simp only [markChildren]
      exact ih _ _ hmem' hpre

/-- Membership in a stable insertion. -/
theorem mem_insertByLen {x p : String × String} :
    ∀ {l : List (String × String)}, x ∈ insertByLen p l ↔ x = p ∨ x ∈ l := by
  intro l
  induction l with
  | nil => simp [insertByLen]
  | cons q qs ih =>
    simp only [insertByLen]
    split_ifs
    · simp only [List.mem_cons, ih]
      tauto
    · simp only [List.mem_cons]

/-- Sorting by length preserves membership. -/
theorem mem_sortByLen {x : String × String} :
    ∀ {l : List (String × String)}, x ∈ sortByLen l ↔ x ∈ l := by
  intro l
  induction l with
  | nil => simp [sortByLen]
  | cons p ps ih =>
    simp only [sortByLen, mem_insertByLen, List.mem_cons, ih]

/-- Stable insertion preserves being sorted by normalized length. -/
theorem pairwise_insertByLen {p : String × String} :
    ∀ {l : List (String × String)},
      l.Pairwise (fun a b => a.1.length ≤ b.1.length) →
      (insertByLen p l).Pairwise (fun a b => a.1.length ≤ b.1.length) := by
  intro l
  induction l with
  | nil => intro _; simp [insertByLen]
  | cons q qs ih =>
    intro hp
    rw [List.pairwise_cons] at hp
    obtain ⟨hq, hqs⟩ := hp
    simp only [insertByLen]
    split_ifs with hle
    · rw [List.pairwise_cons]
      refine ⟨?_, ih hqs⟩
      intro b hb
      rcases mem_insertByLen.mp hb with rfl | hb'
      · exact le_of_lt hle
      · exact hq b hb'
    · rw [List.pairwise_cons]
      refine ⟨?_, List.pairwise_cons.mpr ⟨hq, hqs⟩⟩
      intro b hb
      rcases List.mem_cons.mp hb with rfl | hb'
      · omega
      · exact le_trans (by omega) (hq b hb')

/-- The sorted list is sorted by ascending normalized length. -/
theorem pairwise_sortByLen :
    ∀ (l : List (String × String)),
      (sortByLen l).Pairwise (fun a b => a.1.length ≤ b.1.length) := by
  intro l
  induction l with
  | nil => simp [sortByLen]
  | cons p ps ih => exact pairwise_insertByLen ih

/-- The central invariant of the dedup sweep: kept URLs all come from
the remaining sorted list, none of them is excluded, and no kept URL
with at least one non-empty path segment is a strict parent (via a
`parent ++ "/"` prefix of normalized forms) of any other kept URL. -/
theorem dedupLoop_spec (all : List (String × String))
    (hall : ∀ pr ∈ all, pr.1 = normalizeUrl pr.2) :
    ∀ (rest : List (String × String)) (excluded : List String),
      (∀ pr ∈ rest, pr ∈ all) →
      rest.Pairwise (fun a b => a.1.length ≤ b.1.length) →
      (∀ u ∈ dedupLoop all rest excluded, (normalizeUrl u, u) ∈ rest) ∧
      (∀ u ∈ dedupLoop all rest excluded, normalizeUrl u ∉ excluded) ∧
      (∀ p ∈ dedupLoop all rest excluded, ∀ q ∈ dedupLoop all rest excluded,
        1 ≤ pathSegments (normalizeUrl p) →
        isPrefixCh (normalizeUrl p ++ "/").data (normalizeUrl q).data = false) := by
  intro rest
  induction rest with
  | nil =>
    intro excluded _ _
    refine ⟨?_, ?_, ?_⟩ <;> intro u hu <;> simp [dedupLoop] at hu
  | cons hd tl ih =>
    intro excluded hsub hpw
    obtain ⟨norm, orig⟩ := hd
    have hnorm : norm = normalizeUrl orig := hall _ (hsub _ (List.mem_cons_self _ _))
    rw [List.pairwise_cons] at hpw
    obtain ⟨hhd, htl⟩ := hpw
    have hsub' : ∀ pr ∈ tl, pr ∈ all := fun pr h => hsub pr (List.mem_cons_of_mem _ h)
    by_cases hexc : norm ∈ excluded
    · simp only [dedupLoop, if_pos hexc]
      obtain ⟨ha, hb, hc⟩ := ih excluded hsub' htl
      exact ⟨fun u hu => List.mem_cons_of_mem _ (ha u hu), hb, hc⟩
    · simp only [dedupLoop, if_neg hexc]
      obtain ⟨ha, hb, hc⟩ :=
        ih (if 1 ≤ pathSegments norm then markChildren norm all excluded else excluded)
          hsub' htl
      have hexcmono : ∀ x : String, x ∈ excluded →
          x ∈ (if 1 ≤ pathSegments norm then markChildren norm all excluded
               else excluded) := by
        intro x hx
        split_ifs
        · exact markChildren_mono norm all excluded x hx
        · exact hx
      refine ⟨?_, ?_, ?_⟩
      · intro u hu
        rcases List.mem_cons.mp hu with rfl | hu'
        · rw [← hnorm]
          exact List.mem_cons_self _ _
        · exact List.mem_cons_of_mem _ (ha u hu')
      · intro u hu
        rcases List.mem_cons.mp hu with rfl | hu'
        · rw [← hnorm]
          exact hexc
        · intro hxin
          exact hb u hu' (hexcmono _ hxin)
      · intro p hp q hq hseg
        rcases List.mem_cons.mp hp with rfl | hp' <;>
          rcases List.mem_cons.mp hq with rfl | hq'
        · apply isPrefixCh_false_of_longer
          rw [string_data_append, slash_data, List.length_append]
          simp
        · cases hx : isPrefixCh (normalizeUrl p ++ "/").data (normalizeUrl q).data with
          | false => rfl
          | true =>
            exfalso
            have hqall : (normalizeUrl q, q) ∈ all := hsub' _ (ha q hq')
            have hinexc' : normalizeUrl q ∈
                (if 1 ≤ pathSegments norm then markChildren norm all excluded
                 else excluded) := by
              rw [if_pos (by rw [hnorm]; exact hseg)]
              exact markChildren_complete norm all excluded (normalizeUrl q, q) hqall
                (by rw [hnorm]; exact hx)
            exact hb q hq' hinexc'
        · have hptl : (normalizeUrl p, p) ∈ tl := ha p hp'
          have hlenle : norm.length ≤ (normalizeUrl p).length := hhd _ hptl
          apply isPrefixCh_false_of_longer
          rw [string_data_append, slash_data, List.length_append]
          have e1 : (normalizeUrl q).data.length = (normalizeUrl q).length := rfl
          have e2 : (normalizeUrl p).data.length = (normalizeUrl p).length := rfl
          rw [e1, e2, ← hnorm]
          simp only [List.length_cons, List.length_nil]
          omega
        · exact hc p hp' q hq' hseg

/-- C8: parent/child deduplication over the valid set normalizes each
URL (trailing slashes stripped first, then the fragment, then the
query cut off), sweeps once in ascending order of normalized length
with Python's stable tie order (entries of equal normalized length
keep their input order), and a kept URL with at least one non-empty
path segment excludes every URL whose normalized form extends it by
`"/"`, while zero-segment URLs exclude nothing and excluded URLs
exclude nothing: on the spec's example the children of `/a` are
removed and both `/a` and `/root` survive, a bare homepage never
eliminates its children, equal-length survivors come out in input
order, and in general the kept set never contains both a meaningful
parent and one of its children. -/
theorem dedup_parent_child (urls : List String) :
    deduplicate_parent_child_urls
        ["https://x/a", "https://x/a/b", "https://x/a/c", "https://x/root"]
      = ["https://x/a", "https://x/root"] ∧
    deduplicate_parent_child_urls ["https://x/", "https://x/a"]
      = ["https://x/", "https://x/a"] ∧
    deduplicate_parent_child_urls ["https://x/b", "https://x/a"]
      = ["https://x/b", "https://x/a"] ∧
    (∀ p ∈ deduplicate_parent_child_urls urls,
       ∀ q ∈ deduplicate_parent_child_urls urls,
       1 ≤ pathSegments (normalizeUrl p) →
       isPrefixCh (normalizeUrl p ++ "/").data (normalizeUrl q).data = false) := by
  refine ⟨by decide, by decide, by decide, ?_⟩
  cases urls with
  | nil =>
    intro p hp
    simp [deduplicate_parent_child_urls] at hp
  | cons u us =>
    have hall : ∀ pr ∈ sortByLen ((u :: us).map (fun v => (normalizeUrl v, v))),
        pr.1 = normalizeUrl pr.2 := by
      intro pr hpr
      have hmem : pr ∈ (u :: us).map (fun v => (normalizeUrl v, v)) := mem_sortByLen.mp hpr
      obtain ⟨v, _, rfl⟩ := List.mem_map.mp hmem
      rfl
    have hspec := dedupLoop_spec (sortByLen ((u :: us).map (fun v => (normalizeUrl v, v))))
      hall (sortByLen ((u :: us).map (fun v => (normalizeUrl v, v)))) []
      (fun pr h => h) (pairwise_sortByLen _)
    have hdef : deduplicate_parent_child_urls (u :: us) =
        dedupLoop (sortByLen ((u :: us).map (fun v => (normalizeUrl v, v))))
          (sortByLen ((u :: us).map (fun v => (normalizeUrl v, v)))) [] := rfl
    intro p hp q hq hseg
    rw [hdef] at hp hq
    exact hspec.2.2 p hp q hq hseg

/-- Witness for C8 at a concrete input: both kept URLs of a two-URL
valid set, with `/a` a meaningful parent, are not in a parent/child
relation. -/
theorem dedup_parent_child_witness :
    isPrefixCh (normalizeUrl "https://x/a" ++ "/").data
        (normalizeUrl "https://x/root").data = false :=
  (dedup_parent_child ["https://x/a", "https://x/root"]).2.2.2 "https://x/a" (by decide)
    "https://x/root" (by decide) (by decide)

end AsyncUrlProc
